import Mathlib

/-!
Verification of the Bayesian sampler evaluation core
(`threeML/bayesian/sampler_base.py`).

The embedding models floats by exact rationals extended with the IEEE
special values (`PFloat`), external collaborators (priors, datasets) as
functions over the model's current free-parameter values, and Python
exceptions as explicit `Except` results.  `math.log` is an external pure
function, passed in as an argument `mathLog`; none of the verified
properties depend on its values.
-/

/-- A Python float value: finite (modelled exactly as a rational), the two
infinities, or NaN. -/
inductive PFloat where
  | fin (q : ℚ)
  | posInf
  | negInf
  | nan
deriving DecidableEq

/-- IEEE-style addition on `PFloat`: NaN propagates, opposite infinities
give NaN, an infinity absorbs finite values. -/
def PFloat.add : PFloat → PFloat → PFloat
  | .fin a, .fin b => .fin (a + b)
  | .fin _, .posInf => .posInf
  | .fin _, .negInf => .negInf
  | .posInf, .fin _ => .posInf
  | .negInf, .fin _ => .negInf
  | .posInf, .posInf => .posInf
  | .negInf, .negInf => .negInf
  | .posInf, .negInf => .nan
  | .negInf, .posInf => .nan
  | .nan, _ => .nan
  | _, .nan => .nan

/-- Embeds `np.isfinite`: true exactly on finite values. -/
def PFloat.isFinite : PFloat → Bool
  | .fin _ => true
  | _ => false

/-- Embeds `nb_sum` over a vector of floats (left fold of float addition starting
from the `np.zeros` initial value `0.0`). -/
def nbSum (l : List PFloat) : PFloat := l.foldl PFloat.add (PFloat.fin 0)

/-- The exceptions distinguished by `SamplerBase._log_like`:
`ModelAssertionViolation` is caught, everything else propagates. -/
inductive Exc where
  | mav
  | other (msg : String)
deriving DecidableEq

/-- A precomputed integral-flux array (contents are opaque to this core). -/
abbrev Flux := List ℚ

/-- A free parameter handle: mutable scalar value, prior density function,
and the optional `from_unit_cube` inverse-CDF capability (`hasFromUnitCube`
models `hasattr`; calling the transform without it raises
`AttributeError` in the source). -/
structure Param where
  value : ℚ
  prior : ℚ → ℚ
  hasFromUnitCube : Bool
  fromUnitCube : ℚ → ℚ

/-- A dataset (plugin) handle.  Its likelihood accessors read the model's
current free-parameter values (passed explicitly here) and may raise:
`get_log_like()`, `get_log_like(precalc_fluxes=...)`, `_integral_flux()`,
`get_number_of_data_points()`. -/
structure Dataset where
  name : String
  getLogLike : List ℚ → Except Exc PFloat
  getLogLikeFlux : List ℚ → Option Flux → Except Exc PFloat
  integralFlux : List ℚ → Flux
  nDataPoints : ℕ

/-- Modelled from the spec: the `ShareSpectrum` object (built in
`threeML/utils/spectrum/share_spectrum.py`, which is not part of the
analysed source) exposes `base_plugin_key[g]` (representative dataset name
per energy-bin group), `data_ein_edges[g]` (shared bin edges or the `None`
absence marker), and `data_ebin_connect[i]` (group index of dataset `i`). -/
structure ShareSpectrumObj where
  base_plugin_key : List String
  data_ein_edges : List (Option (List ℚ))
  data_ebin_connect : List ℕ

/-- The sampler state visible to the evaluation core: the ordered free
parameters, the ordered data list, the share-spectrum flag and object, and
the post-sampling products used by the restore step. -/
structure SamplerState where
  params : List (String × Param)
  dataList : List (String × Dataset)
  shareSpectrum : Bool
  shareSpectrumObject : Option ShareSpectrumObj
  samples : List (String × List ℚ)
  logProbabilityValues : List ℚ

/-- The current values of the free parameters, in iteration order. -/
def valuesOf (ps : List (String × Param)) : List ℚ :=
  ps.map (fun p => p.2.value)

/-- The current values of the state's free parameters. -/
def paramValues (st : SamplerState) : List ℚ := valuesOf st.params

/-- Name/value pairs of free parameters, as listed in the non-finite
likelihood warning. -/
def warnPairs (ps : List (String × Param)) : List (String × ℚ) :=
  ps.map (fun p => (p.1, p.2.value))

/-- The warning payload for the current state. -/
def warnList (st : SamplerState) : List (String × ℚ) := warnPairs st.params

/-- Python dictionary lookup on an ordered association list. -/
def lookupAssoc {α : Type} (l : List (String × α)) (k : String) : Option α :=
  (l.find? (fun p => p.1 == k)).map (fun p => p.2)

/-- Non-shared path of `_log_like`: `dataset.get_log_like()` for each
dataset in order, aborting on the first exception. -/
def collectLikes (vals : List ℚ) : List (String × Dataset) → Except Exc (List PFloat)
  | [] => Except.ok []
  | d :: ds => do
      let v ← d.2.getLogLike vals
      let rest ← collectLikes vals ds
      Except.ok (v :: rest)

/-- The `precalc_fluxes` loop of `_log_like`: for each
`(base_key, e_edges)` pair, append `None` when the edges are absent,
otherwise look up the base plugin (`KeyError` if missing) and take its
integral flux. -/
def precalcLoop (vals : List ℚ) (dl : List (String × Dataset)) :
    List (String × Option (List ℚ)) → Except Exc (List (Option Flux))
  | [] => Except.ok []
  | (bk, e) :: rest =>
    match e with
    | none => (precalcLoop vals dl rest).map (fun r => none :: r)
    | some _ =>
      match lookupAssoc dl bk with
      | none => Except.error (Exc.other "KeyError")
      | some d => (precalcLoop vals dl rest).map (fun r => some (d.integralFlux vals) :: r)

/-- The `precalc_fluxes` list built from `zip(base_plugin_key, data_ein_edges)`. -/
def precalcAll (vals : List ℚ) (dl : List (String × Dataset)) (sso : ShareSpectrumObj) :
    Except Exc (List (Option Flux)) :=
  precalcLoop vals dl (sso.base_plugin_key.zip sso.data_ein_edges)

/-- Shared path of `_log_like`, starting at dataset index `i`: if the
dataset's group has defined edges, call `get_log_like` with the group's
precomputed flux, otherwise the unparameterized accessor; out-of-range
list indexing raises `IndexError`. -/
def collectLikesShared (vals : List ℚ) (sso : ShareSpectrumObj) (pf : List (Option Flux)) :
    ℕ → List (String × Dataset) → Except Exc (List PFloat)
  | _, [] => Except.ok []
  | i, d :: ds => do
      let v ← (match sso.data_ebin_connect.get? i with
        | none => Except.error (Exc.other "IndexError")
        | some g =>
          match sso.data_ein_edges.get? g with
          | none => Except.error (Exc.other "IndexError")
          | some none => d.2.getLogLike vals
          | some (some _) =>
            match pf.get? g with
            | none => Except.error (Exc.other "IndexError")
            | some fo => d.2.getLogLikeFlux vals fo)
      let rest ← collectLikesShared vals sso pf (i + 1) ds
      Except.ok (v :: rest)

/-- The `try` block of `_log_like`: fill the per-dataset likelihood vector
through either the non-shared or the shared-spectrum path. -/
def logLikeCore (st : SamplerState) : Except Exc (List PFloat) :=
  if st.shareSpectrum then
    match st.shareSpectrumObject with
    | none => Except.error (Exc.other "AttributeError")
    | some sso => do
        let pf ← precalcAll (paramValues st) st.dataList sso
        collectLikesShared (paramValues st) sso pf 0 st.dataList
  else collectLikes (paramValues st) st.dataList

/-- Embeds `SamplerBase._log_like`: catch `ModelAssertionViolation` as `-inf`,
re-raise every other exception, sum with `nb_sum`, and turn a non-finite
sum into `-inf` with a warning listing each free parameter's name and
current value. -/
def logLike (st : SamplerState) : Except String (PFloat × List (String × ℚ)) :=
  match logLikeCore st with
  | Except.error Exc.mav => Except.ok (PFloat.negInf, [])
  | Except.error (Exc.other m) => Except.error m
  | Except.ok l =>
    let s := nbSum l
    if s.isFinite then Except.ok (s, [])
    else Except.ok (PFloat.negInf, warnList st)

/-- The message of the `AssertionError` raised by `get_posterior` on a
length mismatch. -/
def lengthMismatchMsg : String :=
  "Something is wrong. Number of free parameters\ndo not match the number of trial values."

/-- The prior loop of `get_posterior` / `_log_prior`: walk parameters and
trial values in step; a zero prior density stops the loop (`none`, with
the already-processed parameters assigned), otherwise assign the trial
value and accumulate `math.log` of the density. -/
def assignLoop (mathLog : ℚ → ℚ) :
    List (String × Param) → List ℚ → List (String × Param) × Option ℚ
  | [], _ => ([], some 0)
  | ps, [] => (ps, some 0)
  | (n, p) :: ps, t :: ts =>
    let pv := p.prior t
    if pv = 0 then ((n, p) :: ps, none)
    else
      let r := assignLoop mathLog ps ts
      ((n, { p with value := t }) :: r.1, r.2.map (fun lp => mathLog pv + lp))

/-- Embeds `SamplerBase.get_posterior`: length check, prior loop, then
`_log_like` plus the accumulated log-prior.  The returned pair is the
state after the call together with the return value (`Except.error` for a
raised exception). -/
def get_posterior (mathLog : ℚ → ℚ) (st : SamplerState) (trial : List ℚ) :
    SamplerState × Except String PFloat :=
  if st.params.length ≠ trial.length then (st, Except.error lengthMismatchMsg)
  else
    let r := assignLoop mathLog st.params trial
    let st' := { st with params := r.1 }
    match r.2 with
    | none => (st', Except.ok PFloat.negInf)
    | some lp =>
      match logLike st' with
      | Except.error m => (st', Except.error m)
      | Except.ok s => (st', Except.ok (PFloat.add s.1 (PFloat.fin lp)))

/-- The assignment loop of the unit-cube `loglike` closure: assign
`trial_values[i]` to every free parameter; `false` when the trial vector
is too short (`IndexError` part-way through). -/
def assignAll : List (String × Param) → List ℚ → List (String × Param) × Bool
  | [], _ => ([], true)
  | ps, [] => (ps, false)
  | (n, p) :: ps, t :: ts =>
    let r := assignAll ps ts
    ((n, { p with value := t }) :: r.1, r.2)

/-- The `loglike` closure built by
`UnitCubeSampler._construct_unitcube_posterior`: assign the (already
prior-transformed) trial values, then return `_log_like` alone. -/
def loglikeCube (st : SamplerState) (trial : List ℚ) : SamplerState × Except String PFloat :=
  let r := assignAll st.params trial
  let st' := { st with params := r.1 }
  if r.2 then
    match logLike st' with
    | Except.error m => (st', Except.error m)
    | Except.ok s => (st', Except.ok s.1)
  else (st', Except.error "IndexError")

/-- The `RuntimeError` message raised when a prior lacks
`from_unit_cube`. -/
def unitCubeMsg (name : String) : String :=
  "The prior you are trying to use for parameter " ++ name ++
    " is " ++ "not compatible with sampling from a unitcube"

/-- The body of both `prior` closures: replace `cube[i]` by
`from_unit_cube(cube[i])` for each parameter in order; a parameter whose
prior lacks the capability raises the `RuntimeError` naming it; a cube
shorter than the parameter list raises `IndexError`; extra cube entries
are left untouched. -/
def cubeTransformLoop : List (String × Param) → List ℚ → Except String (List ℚ)
  | [], cs => Except.ok cs
  | _ :: _, [] => Except.error "IndexError"
  | np :: ps, c :: cs =>
    if np.2.hasFromUnitCube then
      (cubeTransformLoop ps cs).map (fun r => np.2.fromUnitCube c :: r)
    else Except.error (unitCubeMsg np.1)

/-- The unit-cube prior transform acting on a state's free parameters. -/
def prior_transform (st : SamplerState) (cube : List ℚ) : Except String (List ℚ) :=
  cubeTransformLoop st.params cube

/-- Embeds `UnitCubeSampler._construct_unitcube_posterior`: building the closures
succeeds immediately when `return_copy` is true; when it is false the
in-place `prior` is dry-run on the midpoint cube `[0.5] * n_dim`, and any
exception from that dry run is raised at construction time. -/
def construct_unitcube_posterior (st : SamplerState) (return_copy : Bool) :
    Except String Unit :=
  if return_copy then Except.ok ()
  else (prior_transform st (List.replicate st.params.length ((1 : ℚ) / 2))).map (fun _ => ())

/-- The sorted copy of a vector (ascending), used to embed `np.median`
and the k-th output of `np.partition`. -/
def sortedList (a : List ℚ) : List ℚ := List.insertionSort (fun x y => x ≤ y) a

/-- The k-th order statistic of `a` (`np.partition(a, k)[k]`). -/
def orderStat (a : List ℚ) (k : ℕ) : ℚ := (sortedList a).getD k 0

/-- Embeds `arg_median` from `sampler_base.py`: for odd length, the first index
whose element equals `np.median(a)` (the middle order statistic); for even
length, the smaller of the first-occurrence indices of the two middle
order statistics. -/
def arg_median (a : List ℚ) : ℕ :=
  if a.length % 2 = 1 then
    a.findIdx (fun x => decide (x = orderStat a (a.length / 2)))
  else
    let l := a.length / 2 - 1
    let r := a.length / 2
    let left := orderStat a l
    let right := orderStat a r
    min (a.findIdx (fun x => decide (x = left)))
      (a.findIdx (fun x => decide (x = right)))

/-- The maximum element of a vector (0 for the empty vector, whose argmax
raises in the source and is guarded against in the restore step). -/
def listMax : List ℚ → ℚ
  | [] => 0
  | x :: xs => xs.foldl max x

/-- Embeds `np.argmax`: the first index attaining the maximum. -/
def arg_max (a : List ℚ) : ℕ := a.findIdx (fun x => decide (x = listMax a))

/-- Embeds `self._samples[name][idx]`: `none` models the `KeyError` /
`IndexError` raised on a missing name or an out-of-range draw index. -/
def lookupSampleVal (samples : List (String × List ℚ)) (n : String) (idx : ℕ) : Option ℚ :=
  (lookupAssoc samples n).bind (fun vec => vec.get? idx)

/-- The parameter-assignment loop shared by `restore_median_fit` and
`restore_MAP_fit`: assign `samples[name][idx]` to each free parameter in
order; a failed lookup aborts the loop (the flag records completion). -/
def restoreLoop (samples : List (String × List ℚ)) (idx : ℕ) :
    List (String × Param) → List (String × Param) × Bool
  | [] => ([], true)
  | (n, p) :: ps =>
    match lookupSampleVal samples n idx with
    | none => ((n, p) :: ps, false)
    | some v =>
      let r := restoreLoop samples idx ps
      ((n, { p with value := v }) :: r.1, r.2)

/-- Embeds `SamplerBase.restore_median_fit`: restore every free parameter to its
sampled value at the `arg_median` index of the log-probability vector.
The Boolean records whether the call completed without raising. -/
def restore_median_fit (st : SamplerState) : SamplerState × Bool :=
  if st.logProbabilityValues = [] then (st, false)
  else
    let idx := arg_median st.logProbabilityValues
    let r := restoreLoop st.samples idx st.params
    ({ st with params := r.1 }, r.2)

/-- Embeds `SamplerBase.restore_MAP_fit`: restore every free parameter to its
sampled value at the argmax index of the log-probability vector. -/
def restore_MAP_fit (st : SamplerState) : SamplerState × Bool :=
  if st.logProbabilityValues = [] then (st, false)
  else
    let idx := arg_max st.logProbabilityValues
    let r := restoreLoop st.samples idx st.params
    ({ st with params := r.1 }, r.2)

/-- A Python value passed as the `share_spectrum` keyword argument; the
constructor checks `type(value) == bool`. -/
inductive PyVal where
  | pybool (b : Bool)
  | pyint (n : ℤ)
  | pyfloat (q : ℚ)
  | pystr (s : String)
deriving DecidableEq

/-- Embeds the check `type(v) == bool`. -/
def PyVal.isBoolType : PyVal → Bool
  | .pybool _ => true
  | _ => false

/-- The share-spectrum handling of `SamplerBase.__init__`: when the
keyword is absent, the flag defaults to `False` and no `ShareSpectrum`
index is built; when present, a non-`bool` value raises the
`AssertionError`, `True` builds the index, `False` disables it. -/
def samplerInitShare (dl : List (String × Dataset))
    (buildShare : List (String × Dataset) → ShareSpectrumObj) (kw : Option PyVal) :
    Except String (Bool × Option ShareSpectrumObj) :=
  match kw with
  | none => Except.ok (false, none)
  | some v =>
    match v with
    | PyVal.pybool b =>
      if b then Except.ok (true, some (buildShare dl)) else Except.ok (false, none)
    | _ => Except.error "share_spectrum must be False or True."

/-! ### Specification-side descriptions used in theorem statements -/

/-- Every parameter assigned its positionally aligned trial value. -/
def assignedParams (ps : List (String × Param)) (ts : List ℚ) : List (String × Param) :=
  List.zipWith (fun np t => (np.1, { np.2 with value := t })) ps ts

/-- The sum over all parameters of `ln(prior_i(trial_i))`. -/
def logPriorSum (mathLog : ℚ → ℚ) (ps : List (String × Param)) (ts : List ℚ) : ℚ :=
  (List.zipWith (fun np t => mathLog (np.2.prior t)) ps ts).sum

/-- Only the first `j` parameters assigned their trial values; the rest
keep their previous values. -/
def assignUpTo : List (String × Param) → List ℚ → ℕ → List (String × Param)
  | ps, _, 0 => ps
  | [], _, _ => []
  | ps, [], _ => ps
  | np :: ps, t :: ts, j + 1 => (np.1, { np.2 with value := t }) :: assignUpTo ps ts j

/-- Index `i` is the first index of `a` holding the value `v`. -/
def isFirstIdxOf (a : List ℚ) (v : ℚ) (i : ℕ) : Prop :=
  a[i]? = some v ∧ ∀ j < i, a[j]? ≠ some v

/-- Two parameter lists agreeing on everything except possibly the prior
density functions. -/
def sameExceptPriors : List (String × Param) → List (String × Param) → Prop :=
  List.Forall₂ (fun a b => a.1 = b.1 ∧ a.2.value = b.2.value ∧
    a.2.hasFromUnitCube = b.2.hasFromUnitCube ∧ a.2.fromUnitCube = b.2.fromUnitCube)

/-! ### Concrete instances for witnesses -/

/-- A sample parameter with a flat unit prior. -/
def exParam : Param :=
  { value := 5, prior := fun _ => 1, hasFromUnitCube := true, fromUnitCube := fun q => q }

/-- A sample dataset with constant log-likelihood `-10`. -/
def exDataset : Dataset :=
  { name := "d1", getLogLike := fun _ => Except.ok (PFloat.fin (-10)),
    getLogLikeFlux := fun _ _ => Except.ok (PFloat.fin (-10)),
    integralFlux := fun _ => [1], nDataPoints := 3 }

/-- A sample state with one free parameter and one dataset. -/
def exState : SamplerState :=
  { params := [("a", exParam)], dataList := [("d1", exDataset)],
    shareSpectrum := false, shareSpectrumObject := none,
    samples := [("a", [1, 2, 3])], logProbabilityValues := [0, 1, 2] }

/-! ### Claim theorems -/

/-- Claim C5: for every trial vector whose length differs from the number
of free parameters, `get_posterior` raises the configuration-mismatch
`AssertionError` (an exception, not a `-inf` return) and leaves every
parameter value unchanged: the length check precedes any prior evaluation
or assignment. -/
theorem get_posterior_length_mismatch (mathLog : ℚ → ℚ) (st : SamplerState)
    (trial : List ℚ) (hlen : st.params.length ≠ trial.length) :
    get_posterior mathLog st trial = (st, Except.error lengthMismatchMsg) := by
  simp [get_posterior, hlen]

theorem get_posterior_length_mismatch_witness :
    get_posterior (fun q => q) exState [] = (exState, Except.error lengthMismatchMsg) :=
  get_posterior_length_mismatch (fun q => q) exState [] (by decide)

/-- Claim C10: a `share_spectrum` keyword whose type is not exactly `bool`
makes the constructor raise the `AssertionError`
"share_spectrum must be False or True." (so no sampler object, and in
particular no share-spectrum index, is ever produced), while an absent
keyword defaults the flag to `False` with no share-spectrum index built. -/
theorem samplerInitShare_contract (dl : List (String × Dataset))
    (buildShare : List (String × Dataset) → ShareSpectrumObj) (v : PyVal)
    (hv : v.isBoolType = false) :
    samplerInitShare dl buildShare (some v) =
        Except.error "share_spectrum must be False or True."
      ∧ samplerInitShare dl buildShare none = Except.ok (false, none) := by
  cases v with
  | pybool b => simp [PyVal.isBoolType] at hv
  | pyint n => exact ⟨rfl, rfl⟩
  | pyfloat q => exact ⟨rfl, rfl⟩
  | pystr s => exact ⟨rfl, rfl⟩

theorem samplerInitShare_contract_witness :
    samplerInitShare [] (fun _ => ⟨[], [], []⟩) (some (PyVal.pyint 1)) =
        Except.error "share_spectrum must be False or True."
      ∧ samplerInitShare [] (fun _ => ⟨[], [], []⟩) none = Except.ok (false, none) :=
  samplerInitShare_contract [] (fun _ => ⟨[], [], []⟩) (PyVal.pyint 1) (by decide)

/-! ### Helper lemmas -/

theorem assignLoop_pos (mathLog : ℚ → ℚ) (ps : List (String × Param)) :
    ∀ ts : List ℚ, ps.length ≤ ts.length →
      (∀ pt ∈ ps.zip ts, pt.1.2.prior pt.2 ≠ 0) →
      assignLoop mathLog ps ts = (assignedParams ps ts, some (logPriorSum mathLog ps ts)) := by
  induction ps with
  | nil =>
    intro ts _ _
    cases ts <;> rfl
  | cons np ps ih =>
    obtain ⟨n, p⟩ := np
    intro ts hlen hz
    cases ts with
    | nil => exact absurd hlen (by simp)
    | cons t ts =>
      have hz0 : p.prior t ≠ 0 := hz ((n, p), t) (by simp)
      have ihr := ih ts (by simpa using hlen) (fun pt hpt => hz pt (List.mem_cons_of_mem _ hpt))
      simp [assignLoop, ihr, hz0, assignedParams, logPriorSum]

theorem collectLikes_ok (vals : List ℚ) (dl : List (String × Dataset)) :
    ∀ ws : List ℚ, dl.length = ws.length →
      (∀ pw ∈ dl.zip ws, pw.1.2.getLogLike vals = Except.ok (PFloat.fin pw.2)) →
      collectLikes vals dl = Except.ok (ws.map PFloat.fin) := by
  induction dl with
  | nil =>
    intro ws hlen _
    cases ws with
    | nil => rfl
    | cons w ws => exact absurd hlen (by simp)
  | cons d ds ih =>
    intro ws hlen hv
    cases ws with
    | nil => exact absurd hlen (by simp)
    | cons w ws =>
      have h0 : d.2.getLogLike vals = Except.ok (PFloat.fin w) := hv (d, w) (by simp)
      have ihr := ih ws (by simpa using hlen) (fun pw hpw => hv pw (List.mem_cons_of_mem _ hpw))
      simp only [collectLikes, h0, ihr, List.map_cons]
      rfl

theorem foldl_add_fins (ws : List ℚ) :
    ∀ q : ℚ, (ws.map PFloat.fin).foldl PFloat.add (PFloat.fin q) = PFloat.fin (q + ws.sum) := by
  induction ws with
  | nil => intro q; simp
  | cons w ws ih =>
    intro q
    simp only [List.map_cons, List.foldl_cons, PFloat.add, List.sum_cons, ih, add_assoc]

theorem nbSum_fins (ws : List ℚ) : nbSum (ws.map PFloat.fin) = PFloat.fin ws.sum := by
  simpa using foldl_add_fins ws 0

theorem valuesOf_assignedParams (ps : List (String × Param)) :
    ∀ ts : List ℚ, valuesOf (assignedParams ps ts) = ts.take ps.length := by
  induction ps with
  | nil => intro ts; simp [assignedParams, valuesOf]
  | cons np ps ih =>
    intro ts
    cases ts with
    | nil => simp [assignedParams, valuesOf]
    | cons t ts => simp [assignedParams, valuesOf, List.take_succ_cons] at ih ⊢; exact ih ts

/-- Claim C1: for a trial vector of the right length with all prior
densities strictly positive, `get_posterior` assigns each free parameter
its trial value in iteration order and returns the sum over all datasets
of `get_log_like()` plus the sum over all parameters of
`ln(prior_i(trial_i))`, provided no dataset raises and the summed
log-likelihood is finite. -/
theorem get_posterior_correct (mathLog : ℚ → ℚ) (st : SamplerState) (trial ws : List ℚ)
    (hshare : st.shareSpectrum = false)
    (hlen : st.params.length = trial.length)
    (hpos : ∀ pt ∈ st.params.zip trial, 0 < pt.1.2.prior pt.2)
    (hwlen : st.dataList.length = ws.length)
    (hdata : ∀ pw ∈ st.dataList.zip ws, pw.1.2.getLogLike trial = Except.ok (PFloat.fin pw.2)) :
    get_posterior mathLog st trial =
      ({ st with params := assignedParams st.params trial },
        Except.ok (PFloat.fin (ws.sum + logPriorSum mathLog st.params trial))) := by
  have hne : ∀ pt ∈ st.params.zip trial, pt.1.2.prior pt.2 ≠ 0 :=
    fun pt h => ne_of_gt (hpos pt h)
  have ha := assignLoop_pos mathLog st.params trial (le_of_eq hlen) hne
  have hvals : valuesOf (assignedParams st.params trial) = trial := by
    simp [valuesOf_assignedParams st.params trial, hlen]
  have hcl : collectLikes trial st.dataList = Except.ok (ws.map PFloat.fin) :=
    collectLikes_ok trial st.dataList ws hwlen hdata
  have hll : logLike { st with params := assignedParams st.params trial } =
      Except.ok (PFloat.fin ws.sum, []) := by
    simp [logLike, logLikeCore, hshare, paramValues, hvals, hcl, nbSum_fins, PFloat.isFinite]
  simp [get_posterior, hlen, ha, hll, PFloat.add]

theorem get_posterior_correct_witness :
    get_posterior (fun q => q) exState [5] =
      ({ exState with params := assignedParams exState.params [5] },
        Except.ok (PFloat.fin (List.sum [-10] + logPriorSum (fun q => q) exState.params [5]))) :=
  get_posterior_correct (fun q => q) exState [5] [-10] rfl rfl
    (by decide)
    rfl
    (by
      intro pw hpw
      simp [exState, exDataset] at hpw
      subst hpw
      rfl)

theorem assignLoop_zero (mathLog : ℚ → ℚ) (ps : List (String × Param)) :
    ∀ (ts : List ℚ) (j : ℕ) (npj : String × Param) (tj : ℚ),
      ps[j]? = some npj → ts[j]? = some tj → npj.2.prior tj = 0 →
      (∀ i np t, i < j → ps[i]? = some np → ts[i]? = some t → np.2.prior t ≠ 0) →
      assignLoop mathLog ps ts = (assignUpTo ps ts j, none) := by
  induction ps with
  | nil => intro ts j npj tj hpj _ _ _; simp at hpj
  | cons np0 ps ih =>
    obtain ⟨n, p⟩ := np0
    intro ts j npj tj hpj htj hz hfirst
    cases ts with
    | nil => simp at htj
    | cons t ts =>
      cases j with
      | zero =>
        simp only [List.getElem?_cons_zero, Option.some.injEq] at hpj htj
        subst hpj; subst htj
        simp only at hz
        simp [assignLoop, assignUpTo, hz]
      | succ j =>
        have h0 : p.prior t ≠ 0 := by
          have := hfirst 0 (n, p) t (Nat.succ_pos j) (by simp) (by simp)
          simpa using this
        have ihr := ih ts j npj tj (by simpa using hpj) (by simpa using htj) hz
          (fun i np t hi h1 h2 =>
            hfirst (i + 1) np t (Nat.succ_lt_succ hi) (by simpa using h1) (by simpa using h2))
        simp [assignLoop, h0, ihr, assignUpTo]

/-- Claim C2: for a trial vector of correct length whose component at the
first zero-density index `j` has zero prior density, `get_posterior`
returns negative infinity — whatever the other components are — and
exactly the parameters strictly before `j` have been assigned their trial
values; the rejecting parameter and all later ones keep their previous
values. -/
theorem get_posterior_zero_prior (mathLog : ℚ → ℚ) (st : SamplerState) (trial : List ℚ)
    (j : ℕ) (npj : String × Param) (tj : ℚ)
    (hlen : st.params.length = trial.length)
    (hpj : st.params[j]? = some npj)
    (htj : trial[j]? = some tj)
    (hz : npj.2.prior tj = 0)
    (hfirst : ∀ i np t, i < j → st.params[i]? = some np → trial[i]? = some t →
        np.2.prior t ≠ 0) :
    get_posterior mathLog st trial =
      ({ st with params := assignUpTo st.params trial j }, Except.ok PFloat.negInf) := by
  have ha := assignLoop_zero mathLog st.params trial j npj tj hpj htj hz hfirst
  simp [get_posterior, hlen, ha]

/-- A sample parameter whose prior density is identically zero. -/
def exParamZero : Param :=
  { value := 7, prior := fun _ => 0, hasFromUnitCube := true, fromUnitCube := fun q => q }

/-- A sample state with a positive-prior parameter followed by a
zero-prior parameter. -/
def exState2 : SamplerState :=
  { params := [("a", exParam), ("b", exParamZero)], dataList := [("d1", exDataset)],
    shareSpectrum := false, shareSpectrumObject := none,
    samples := [("a", [1, 2, 3]), ("b", [4, 5, 6])], logProbabilityValues := [0, 1, 2] }

theorem get_posterior_zero_prior_witness :
    get_posterior (fun q => q) exState2 [5, 2] =
      ({ exState2 with params := assignUpTo exState2.params [5, 2] 1 },
        Except.ok PFloat.negInf) :=
  get_posterior_zero_prior (fun q => q) exState2 [5, 2] 1 ("b", exParamZero) 2 rfl rfl rfl
    (by decide)
    (by
      intro i np t hi h1 h2
      have hi0 : i = 0 := by omega
      subst hi0
      have h1' : some ("a", exParam) = some np := h1
      have h2' : some (5 : ℚ) = some t := h2
      injection h1' with h1''
      injection h2' with h2''
      subst h1''; subst h2''
      decide)

/-- Claim C4: `_log_like` returns negative infinity exactly when a
`ModelAssertionViolation` is raised during per-dataset likelihood
evaluation or the summed log-likelihood is non-finite — in the latter
case after emitting the warning listing each free parameter's name and
current value — and every other exception propagates uncaught. -/
theorem logLike_neginf_iff (st : SamplerState) :
    ((∃ w, logLike st = Except.ok (PFloat.negInf, w)) ↔
      (logLikeCore st = Except.error Exc.mav ∨
        ∃ l, logLikeCore st = Except.ok l ∧ (nbSum l).isFinite = false))
    ∧ (∀ l, logLikeCore st = Except.ok l → (nbSum l).isFinite = false →
        logLike st = Except.ok (PFloat.negInf, warnList st))
    ∧ (logLikeCore st = Except.error Exc.mav → logLike st = Except.ok (PFloat.negInf, []))
    ∧ (∀ m, logLikeCore st = Except.error (Exc.other m) → logLike st = Except.error m) := by
  have himp1 : ∀ l, logLikeCore st = Except.ok l → (nbSum l).isFinite = false →
      logLike st = Except.ok (PFloat.negInf, warnList st) := by
    intro l hl hf
    simp [logLike, hl, hf]
  have himp2 : logLikeCore st = Except.error Exc.mav →
      logLike st = Except.ok (PFloat.negInf, []) := by
    intro h; simp [logLike, h]
  have himp3 : ∀ m, logLikeCore st = Except.error (Exc.other m) →
      logLike st = Except.error m := by
    intro m h; simp [logLike, h]
  refine ⟨⟨?_, ?_⟩, himp1, himp2, himp3⟩
  · rintro ⟨w, hw⟩
    cases hcore : logLikeCore st with
    | error e =>
      cases e with
      | mav => exact Or.inl rfl
      | other m =>
        rw [himp3 m hcore] at hw
        exact absurd hw (by simp)
    | ok l =>
      by_cases hf : (nbSum l).isFinite = true
      · have hok : logLike st = Except.ok (nbSum l, []) := by simp [logLike, hcore, hf]
        rw [hok] at hw
        injection hw with hw'
        have h1 : nbSum l = PFloat.negInf := congrArg Prod.fst hw'
        rw [h1] at hf
        exact absurd hf (by simp [PFloat.isFinite])
      · exact Or.inr ⟨l, rfl, by simpa using hf⟩
  · rintro (h | ⟨l, hl, hf⟩)
    · exact ⟨[], himp2 h⟩
    · exact ⟨warnList st, himp1 l hl hf⟩

/-- A sample dataset whose likelihood evaluation raises
`ModelAssertionViolation`. -/
def exDatasetMAV : Dataset :=
  { name := "d2", getLogLike := fun _ => Except.error Exc.mav,
    getLogLikeFlux := fun _ _ => Except.error Exc.mav,
    integralFlux := fun _ => [1], nDataPoints := 1 }

/-- A sample state whose only dataset raises `ModelAssertionViolation`. -/
def exStateMAV : SamplerState :=
  { params := [("a", exParam)], dataList := [("d2", exDatasetMAV)],
    shareSpectrum := false, shareSpectrumObject := none,
    samples := [("a", [1, 2, 3])], logProbabilityValues := [0, 1, 2] }

theorem logLike_neginf_iff_witness :
    logLike exStateMAV = Except.ok (PFloat.negInf, []) :=
  (logLike_neginf_iff exStateMAV).2.2.1 rfl

theorem restoreLoop_idem (samples : List (String × List ℚ)) (idx : ℕ) :
    ∀ ps ps', restoreLoop samples idx ps = (ps', true) →
      restoreLoop samples idx ps' = (ps', true) := by
  intro ps
  induction ps with
  | nil =>
    intro ps' h
    simp only [restoreLoop, Prod.mk.injEq] at h
    rw [← h.1]
    rfl
  | cons np ps ih =>
    obtain ⟨n, p⟩ := np
    intro ps' h
    cases hl : lookupSampleVal samples n idx with
    | none => simp [restoreLoop, hl] at h
    | some v =>
      simp only [restoreLoop, hl] at h
      have h1 : (n, { p with value := v }) :: (restoreLoop samples idx ps).1 = ps' :=
        congrArg Prod.fst h
      have h2 : (restoreLoop samples idx ps).2 = true := congrArg Prod.snd h
      have hr : restoreLoop samples idx ps = ((restoreLoop samples idx ps).1, true) := by
        rw [← h2]
      have ihr := ih (restoreLoop samples idx ps).1 hr
      rw [← h1]
      simp [restoreLoop, hl, ihr]

/-- Claim C9: for fixed samples dictionary and log-probability vector,
the restore step is idempotent: a second call to `restore_median_fit`
(respectively `restore_MAP_fit`) after a successful one leaves every free
parameter with the same value as the single call. -/
theorem restore_fit_idempotent :
    (∀ s1 s2, restore_median_fit s1 = (s2, true) → restore_median_fit s2 = (s2, true))
    ∧ (∀ s1 s2, restore_MAP_fit s1 = (s2, true) → restore_MAP_fit s2 = (s2, true)) := by
  constructor
  · intro s1 s2 h
    by_cases he : s1.logProbabilityValues = []
    · rw [restore_median_fit, if_pos he] at h
      exact absurd (congrArg Prod.snd h) (by simp)
    · rw [restore_median_fit, if_neg he] at h
      have h1 := congrArg Prod.fst h
      have h2 := congrArg Prod.snd h
      simp only at h1 h2
      rw [← h1]
      rw [restore_median_fit, if_neg (by simpa using he)]
      have hr : restoreLoop s1.samples (arg_median s1.logProbabilityValues) s1.params =
          ((restoreLoop s1.samples (arg_median s1.logProbabilityValues) s1.params).1, true) := by
        rw [← h2]
      have ihr := restoreLoop_idem s1.samples (arg_median s1.logProbabilityValues)
        s1.params _ hr
      simp only [ihr]
  · intro s1 s2 h
    by_cases he : s1.logProbabilityValues = []
    · rw [restore_MAP_fit, if_pos he] at h
      exact absurd (congrArg Prod.snd h) (by simp)
    · rw [restore_MAP_fit, if_neg he] at h
      have h1 := congrArg Prod.fst h
      have h2 := congrArg Prod.snd h
      simp only at h1 h2
      rw [← h1]
      rw [restore_MAP_fit, if_neg (by simpa using he)]
      have hr : restoreLoop s1.samples (arg_max s1.logProbabilityValues) s1.params =
          ((restoreLoop s1.samples (arg_max s1.logProbabilityValues) s1.params).1, true) := by
        rw [← h2]
      have ihr := restoreLoop_idem s1.samples (arg_max s1.logProbabilityValues)
        s1.params _ hr
      simp only [ihr]

/-- The state `exState` restored to the median draw. -/
def exStateMed : SamplerState :=
  { exState with params := [("a", { exParam with value := 2 })] }

/-- The state `exState` restored to the MAP draw. -/
def exStateMAPfit : SamplerState :=
  { exState with params := [("a", { exParam with value := 3 })] }

theorem restore_fit_idempotent_witness :
    restore_median_fit exStateMed = (exStateMed, true)
      ∧ restore_MAP_fit exStateMAPfit = (exStateMAPfit, true) :=
  ⟨restore_fit_idempotent.1 exState exStateMed (by rfl),
   restore_fit_idempotent.2 exState exStateMAPfit (by rfl)⟩

theorem assignAll_spec (ps : List (String × Param)) :
    ∀ ts : List ℚ, ps.length ≤ ts.length →
      assignAll ps ts = (assignedParams ps ts, true) := by
  induction ps with
  | nil => intro ts _; cases ts <;> rfl
  | cons np ps ih =>
    obtain ⟨n, p⟩ := np
    intro ts hlen
    cases ts with
    | nil => exact absurd hlen (by simp)
    | cons t ts =>
      simp [assignAll, ih ts (by simpa using hlen), assignedParams]

theorem warnPairs_cons (x : String × Param) (l : List (String × Param)) :
    warnPairs (x :: l) = (x.1, x.2.value) :: warnPairs l := rfl

theorem sep_warnPairs : ∀ ps qs, sameExceptPriors ps qs → warnPairs ps = warnPairs qs := by
  intro ps qs h
  induction h with
  | nil => rfl
  | cons hr _ ih =>
    rw [warnPairs_cons, warnPairs_cons, ih, hr.1, hr.2.1]

theorem logLike_congr (st : SamplerState) (ps qs : List (String × Param))
    (hw : warnPairs ps = warnPairs qs) :
    logLike { st with params := ps } = logLike { st with params := qs } := by
  have hv : valuesOf ps = valuesOf qs := by
    have h2 := congrArg (List.map Prod.snd) hw
    simpa [valuesOf, warnPairs, List.map_map, Function.comp] using h2
  simp [logLike, logLikeCore, paramValues, warnList, hv, hw]

theorem sep_assignAll : ∀ ps qs, sameExceptPriors ps qs → ∀ ts : List ℚ,
    warnPairs (assignAll ps ts).1 = warnPairs (assignAll qs ts).1 ∧
      (assignAll ps ts).2 = (assignAll qs ts).2 := by
  intro ps qs h
  induction h with
  | nil => intro ts; exact ⟨rfl, rfl⟩
  | @cons a b l₁ l₂ hr hrest ih =>
    obtain ⟨n1, p1⟩ := a
    obtain ⟨n2, p2⟩ := b
    intro ts
    cases ts with
    | nil =>
      exact ⟨sep_warnPairs _ _ (List.Forall₂.cons hr hrest), rfl⟩
    | cons t ts =>
      obtain ⟨hw, hb⟩ := ih ts
      obtain ⟨he1, he2, _, _⟩ := hr
      constructor
      · rw [show assignAll ((n1, p1) :: l₁) (t :: ts) =
            ((n1, { p1 with value := t }) :: (assignAll l₁ ts).1, (assignAll l₁ ts).2) from rfl]
        rw [show assignAll ((n2, p2) :: l₂) (t :: ts) =
            ((n2, { p2 with value := t }) :: (assignAll l₂ ts).1, (assignAll l₂ ts).2) from rfl]
        rw [warnPairs_cons, warnPairs_cons, hw]
        simp only at he1
        rw [he1]
      · rw [show (assignAll ((n1, p1) :: l₁) (t :: ts)).2 = (assignAll l₁ ts).2 from rfl]
        rw [show (assignAll ((n2, p2) :: l₂) (t :: ts)).2 = (assignAll l₂ ts).2 from rfl]
        exact hb

/-- Claim C7: the unit-cube `loglike` closure assigns the (already
prior-transformed) trial values to the free parameters in order and
returns the aggregated log-likelihood alone: no log-prior term is added
and no prior density is evaluated inside it (its return value is
unchanged when every prior density function is replaced), unlike
`get_posterior` which adds the summed log-prior. -/
theorem loglike_no_prior (st : SamplerState) (trial : List ℚ)
    (hlen : st.params.length ≤ trial.length) :
    loglikeCube st trial =
      ({ st with params := assignedParams st.params trial },
        (logLike { st with params := assignedParams st.params trial }).map (fun s => s.1))
    ∧ ∀ qs, sameExceptPriors st.params qs →
        (loglikeCube { st with params := qs } trial).2 = (loglikeCube st trial).2 := by
  constructor
  · have ha := assignAll_spec st.params trial hlen
    simp only [loglikeCube, ha]
    cases hll : logLike { st with params := assignedParams st.params trial } with
    | error m => simp [hll, Except.map]
    | ok s => simp [hll, Except.map]
  · intro qs hsep
    obtain ⟨hw, hb⟩ := sep_assignAll st.params qs hsep trial
    cases hb2 : (assignAll st.params trial).2 with
    | false =>
      have hq2 : (assignAll qs trial).2 = false := by rw [← hb]; exact hb2
      simp [loglikeCube, hb2, hq2]
    | true =>
      have hq2 : (assignAll qs trial).2 = true := by rw [← hb]; exact hb2
      have hcong := logLike_congr st (assignAll qs trial).1 (assignAll st.params trial).1 hw.symm
      simp only [loglikeCube, hb2, hq2, hcong, if_true]
      cases logLike { st with params := (assignAll st.params trial).1 } <;> simp

theorem loglike_no_prior_witness :
    (loglikeCube exState [9] =
      ({ exState with params := assignedParams exState.params [9] },
        (logLike { exState with params := assignedParams exState.params [9] }).map (fun s => s.1)))
    ∧ (loglikeCube { exState with params := [("a", { exParam with prior := fun _ => 99 })] } [9]).2 =
        (loglikeCube exState [9]).2 :=
  ⟨(loglike_no_prior exState [9] (by decide)).1,
   (loglike_no_prior exState [9] (by decide)).2 _
     (List.Forall₂.cons ⟨rfl, rfl, rfl, rfl⟩ List.Forall₂.nil)⟩

theorem logLike_ext (st1 st2 : SamplerState)
    (h1 : logLikeCore st1 = logLikeCore st2) (h2 : warnList st1 = warnList st2) :
    logLike st1 = logLike st2 := by
  unfold logLike
  rw [h1, h2]

theorem collectShared_eq_collect (vals : List ℚ) (sso : ShareSpectrumObj)
    (pf : List (Option Flux)) :
    ∀ (ds : List (String × Dataset)) (k : ℕ),
      (∀ m (d : String × Dataset), ds[m]? = some d →
        ∃ g e, sso.data_ebin_connect.get? (k + m) = some g ∧
          sso.data_ein_edges.get? g = some e ∧
          (∀ ee, e = some ee → ∃ fo, pf.get? g = some fo ∧
            d.2.getLogLikeFlux vals fo = d.2.getLogLike vals)) →
      collectLikesShared vals sso pf k ds = collectLikes vals ds := by
  intro ds
  induction ds with
  | nil => intro k _; rfl
  | cons d ds ih =>
    intro k hc
    obtain ⟨g, e, hg, he, hee⟩ := hc 0 d (by simp)
    have ihr := ih (k + 1) (fun m d hd => by
      have hmem := hc (m + 1) d (by simpa using hd)
      rwa [show k + (m + 1) = k + 1 + m by omega] at hmem)
    rw [show k + 0 = k by omega] at hg
    cases e with
    | none =>
      simp only [collectLikesShared, hg, he, ihr, collectLikes]
    | some ee =>
      obtain ⟨fo, hfo, hEq⟩ := hee ee rfl
      simp only [collectLikesShared, hg, he, hfo, hEq, ihr, collectLikes]

/-- Claim C3: with the shared-spectrum path enabled (one integral flux
precomputed per energy-bin group from its base plugin and handed to each
member dataset), the total log-likelihood equals the one computed by the
non-shared path calling each dataset's unparameterized `get_log_like` —
also when two or more datasets share a group — given that each dataset's
`get_log_like` with its group's precomputed flux equals its
unparameterized `get_log_like`. -/
theorem share_spectrum_equiv (st : SamplerState) (sso : ShareSpectrumObj)
    (pf : List (Option Flux))
    (hshare : st.shareSpectrum = true)
    (hobj : st.shareSpectrumObject = some sso)
    (hpf : precalcAll (paramValues st) st.dataList sso = Except.ok pf)
    (hcompat : ∀ m (d : String × Dataset), st.dataList[m]? = some d →
      ∃ g e, sso.data_ebin_connect.get? m = some g ∧
        sso.data_ein_edges.get? g = some e ∧
        (∀ ee, e = some ee → ∃ fo, pf.get? g = some fo ∧
          d.2.getLogLikeFlux (paramValues st) fo = d.2.getLogLike (paramValues st)))
    (_hmulti : ∃ i j gi gj, i ≠ j ∧ sso.data_ebin_connect.get? i = some gi ∧
        sso.data_ebin_connect.get? j = some gj ∧ gi = gj) :
    logLike st = logLike { st with shareSpectrum := false } := by
  have hcs := collectShared_eq_collect (paramValues st) sso pf st.dataList 0
    (fun m d hd => by simpa using hcompat m d hd)
  have hcore1 : logLikeCore st = collectLikes (paramValues st) st.dataList := by
    simp only [logLikeCore, hshare, if_true, hobj]
    rw [precalcAll] at hpf
    rw [show precalcAll (paramValues st) st.dataList sso =
      precalcLoop (paramValues st) st.dataList
        (sso.base_plugin_key.zip sso.data_ein_edges) from rfl, hpf]
    simpa using hcs
  have hcore2 : logLikeCore { st with shareSpectrum := false } =
      collectLikes (paramValues st) st.dataList := rfl
  exact logLike_ext _ _ (hcore1.trans hcore2.symm) rfl

/-- A share-spectrum plan putting both sample datasets in one group with
base plugin `d1`. -/
def exSSO : ShareSpectrumObj :=
  { base_plugin_key := ["d1"], data_ein_edges := [some [1, 2]], data_ebin_connect := [0, 0] }

/-- A sample state with two datasets sharing one energy-bin group. -/
def exStateShared : SamplerState :=
  { params := [("a", exParam)], dataList := [("d1", exDataset), ("d2", exDataset)],
    shareSpectrum := true, shareSpectrumObject := some exSSO,
    samples := [("a", [1, 2, 3])], logProbabilityValues := [0, 1, 2] }

theorem share_spectrum_equiv_witness :
    logLike exStateShared = logLike { exStateShared with shareSpectrum := false } :=
  share_spectrum_equiv exStateShared exSSO [some [1]] rfl rfl rfl
    (by
      intro m d hd
      match m with
      | 0 =>
        have hd' : some ("d1", exDataset) = some d := hd
        injection hd' with hd''
        subst hd''
        exact ⟨0, some [1, 2], rfl, rfl, fun ee _ => ⟨some [1], rfl, rfl⟩⟩
      | 1 =>
        have hd' : some ("d2", exDataset) = some d := hd
        injection hd' with hd''
        subst hd''
        exact ⟨0, some [1, 2], rfl, rfl, fun ee _ => ⟨some [1], rfl, rfl⟩⟩
      | m + 2 =>
        simp [exStateShared] at hd)
    ⟨0, 1, 0, 0, by decide, rfl, rfl, rfl⟩

/-- A sample parameter whose prior lacks the `from_unit_cube`
capability. -/
def exParamNoCube : Param :=
  { value := 0, prior := fun _ => 1, hasFromUnitCube := false, fromUnitCube := fun q => q }

/-- A sample state whose only parameter's prior lacks `from_unit_cube`. -/
def exStateNoCube : SamplerState :=
  { params := [("a", exParamNoCube)], dataList := [("d1", exDataset)],
    shareSpectrum := false, shareSpectrumObject := none,
    samples := [("a", [1, 2, 3])], logProbabilityValues := [0, 1, 2] }

/-- Claim C8 counterexample: for the copy-returning transform variant
(`return_copy=True`), constructing the posterior callables raises no
error even though the state's parameter `a` lacks the `from_unit_cube`
capability — the dry-run transform of the midpoint vector happens only in
the in-place branch of the source, so the incompatibility is not detected
at construction time for the copy-returning variant. -/
theorem unitcube_copy_no_dry_run_cex :
    construct_unitcube_posterior exStateNoCube true = Except.ok ()
      ∧ exStateNoCube.params.get? 0 = some ("a", exParamNoCube)
      ∧ exParamNoCube.hasFromUnitCube = false :=
  ⟨rfl, rfl, rfl⟩

theorem cubeLoop_err (name : String) (p : Param) :
    ∀ (ps : List (String × Param)) (cube : List ℚ) (j : ℕ),
      ps[j]? = some (name, p) → p.hasFromUnitCube = false →
      (∀ i q, i < j → ps[i]? = some q → q.2.hasFromUnitCube = true) →
      ps.length ≤ cube.length →
      cubeTransformLoop ps cube = Except.error (unitCubeMsg name) := by
  intro ps
  induction ps with
  | nil => intro cube j hj; simp at hj
  | cons np ps ih =>
    obtain ⟨n0, p0⟩ := np
    intro cube j hj hnc hbefore hlen
    cases cube with
    | nil => exact absurd hlen (by simp)
    | cons c cs =>
      cases j with
      | zero =>
        simp only [List.getElem?_cons_zero, Option.some.injEq, Prod.mk.injEq] at hj
        obtain ⟨hn, hp⟩ := hj
        subst hn; subst hp
        simp [cubeTransformLoop, hnc]
      | succ j =>
        have hcap : p0.hasFromUnitCube = true := by
          have := hbefore 0 (n0, p0) (Nat.succ_pos j) (by simp)
          simpa using this
        have ihr := ih cs j (by simpa using hj) hnc
          (fun i q hi hq =>
            hbefore (i + 1) q (Nat.succ_lt_succ hi) (by simpa using hq))
          (by simpa using hlen)
        simp [cubeTransformLoop, hcap, ihr, Except.map]

/-- Claim C8 (amended): when a free parameter's prior lacks the
`from_unit_cube` capability (first such parameter at index `j`), the
unit-cube adapter fails with the configuration error naming it; the
incompatibility is detected by the one-time dry-run transform of the
midpoint vector `[0.5]*n` at construction time for the in-place variant
only — for the copy-returning variant construction succeeds and the error
surfaces when the sampler later calls the transform. -/
theorem unitcube_dry_run (st : SamplerState) (j : ℕ) (name : String) (p : Param)
    (hj : st.params[j]? = some (name, p))
    (hnc : p.hasFromUnitCube = false)
    (hbefore : ∀ i q, i < j → st.params[i]? = some q → q.2.hasFromUnitCube = true) :
    construct_unitcube_posterior st false = Except.error (unitCubeMsg name)
      ∧ construct_unitcube_posterior st true = Except.ok ()
      ∧ ∀ cube : List ℚ, st.params.length ≤ cube.length →
          prior_transform st cube = Except.error (unitCubeMsg name) := by
  have hloop : ∀ cube : List ℚ, st.params.length ≤ cube.length →
      prior_transform st cube = Except.error (unitCubeMsg name) :=
    fun cube hlen => cubeLoop_err name p st.params cube j hj hnc hbefore hlen
  refine ⟨?_, rfl, hloop⟩
  have hrep := hloop (List.replicate st.params.length ((1 : ℚ) / 2)) (by simp)
  rw [show construct_unitcube_posterior st false =
    (prior_transform st (List.replicate st.params.length ((1 : ℚ) / 2))).map
      (fun _ => ()) from rfl, hrep]
  rfl

theorem unitcube_dry_run_witness :
    construct_unitcube_posterior exStateNoCube false = Except.error (unitCubeMsg "a")
      ∧ prior_transform exStateNoCube [(1 : ℚ) / 3] = Except.error (unitCubeMsg "a") :=
  ⟨(unitcube_dry_run exStateNoCube 0 "a" exParamNoCube rfl rfl
      (fun i q hi _ => absurd hi (Nat.not_lt_zero i))).1,
   (unitcube_dry_run exStateNoCube 0 "a" exParamNoCube rfl rfl
      (fun i q hi _ => absurd hi (Nat.not_lt_zero i))).2.2 [(1 : ℚ) / 3] (by decide)⟩

theorem orderStat_mem (a : List ℚ) (k : ℕ) (hk : k < a.length) : orderStat a k ∈ a := by
  have hk2 : k < (sortedList a).length := by simpa [sortedList] using hk
  have h1 : (sortedList a)[k]? = some ((sortedList a)[k]) := List.getElem?_eq_getElem hk2
  have h2 : orderStat a k = (sortedList a)[k] := by
    simp [orderStat, h1]
  rw [h2]
  exact (List.mem_insertionSort _).mp (List.getElem_mem hk2)

theorem firstIdx_spec (a : List ℚ) (v : ℚ) (hv : v ∈ a) :
    isFirstIdxOf a v (a.findIdx (fun x => decide (x = v))) := by
  have hex : ∃ x ∈ a, (fun x : ℚ => decide (x = v)) x = true := ⟨v, hv, by simp⟩
  have hlt := List.findIdx_lt_length_of_exists hex
  constructor
  · have h1 := List.getElem?_eq_getElem hlt
    have h2 : (fun x : ℚ => decide (x = v)) (a[a.findIdx (fun x => decide (x = v))]) =
        true := List.findIdx_getElem (w := hlt)
    have h3 : a[a.findIdx (fun x => decide (x = v))] = v := by simpa using h2
    rw [h1, h3]
  · intro j hj hcontra
    have h4 := List.not_of_lt_findIdx hj
    obtain ⟨hjl, hje⟩ := List.getElem?_eq_some_iff.mp hcontra
    simp [hje] at h4

/-- Claim C6: for every non-empty vector, `arg_median` returns — for odd
length — the first index whose element equals the exact median value (the
middle order statistic); for even length, the smaller of the two
first-occurrence indices of the lower-middle and upper-middle order
statistics; for the even-length vector `[3,1,4,1,5,9]` it returns index 0;
and the returned index is always a valid index into the vector. -/
theorem arg_median_spec (a : List ℚ) (ha : a ≠ []) :
    (a.length % 2 = 1 →
      isFirstIdxOf a (orderStat a (a.length / 2)) (arg_median a))
    ∧ (a.length % 2 ≠ 1 →
      ∃ il ir, isFirstIdxOf a (orderStat a (a.length / 2 - 1)) il ∧
        isFirstIdxOf a (orderStat a (a.length / 2)) ir ∧ arg_median a = min il ir)
    ∧ arg_median a < a.length
    ∧ arg_median ([3, 1, 4, 1, 5, 9] : List ℚ) = 0 := by
  have hn : 0 < a.length := List.length_pos.mpr ha
  have hexample : arg_median ([3, 1, 4, 1, 5, 9] : List ℚ) = 0 := by decide
  by_cases hodd : a.length % 2 = 1
  · have hmem : orderStat a (a.length / 2) ∈ a := orderStat_mem a _ (by omega)
    have harg : arg_median a =
        a.findIdx (fun x => decide (x = orderStat a (a.length / 2))) := by
      simp only [arg_median, if_pos hodd]
    refine ⟨fun _ => ?_, fun h => absurd hodd h, ?_, hexample⟩
    · rw [harg]
      exact firstIdx_spec a _ hmem
    · rw [harg]
      exact List.findIdx_lt_length_of_exists ⟨_, hmem, by simp⟩
  · have hmem1 : orderStat a (a.length / 2 - 1) ∈ a := orderStat_mem a _ (by omega)
    have hmem2 : orderStat a (a.length / 2) ∈ a := orderStat_mem a _ (by omega)
    have harg : arg_median a =
        min (a.findIdx (fun x => decide (x = orderStat a (a.length / 2 - 1))))
          (a.findIdx (fun x => decide (x = orderStat a (a.length / 2)))) := by
      simp only [arg_median, if_neg hodd]
    refine ⟨fun h => absurd h hodd, fun _ => ?_, ?_, hexample⟩
    · exact ⟨_, _, firstIdx_spec a _ hmem1, firstIdx_spec a _ hmem2, harg⟩
    · rw [harg]
      have h1 := List.findIdx_lt_length_of_exists
        (p := fun x => decide (x = orderStat a (a.length / 2 - 1))) ⟨_, hmem1, by simp⟩
      exact lt_of_le_of_lt (min_le_left _ _) h1

theorem arg_median_spec_witness :
    ([3, 1, 4, 1, 5, 9] : List ℚ) ≠ [] ∧
      arg_median ([3, 1, 4, 1, 5, 9] : List ℚ) < ([3, 1, 4, 1, 5, 9] : List ℚ).length :=
  ⟨by decide, (arg_median_spec ([3, 1, 4, 1, 5, 9] : List ℚ) (by decide)).2.2.1⟩
